import Mathlib

/-!
Verification of the directed multi-relation graph core (`graph/graph.go`)
against its natural-language specification.

The Go source is shallowly embedded below.  Go strings are Lean `String`s;
Go maps are embedded as association lists together with an explicit `nil`
state (`Option`), because Go distinguishes a nil map (readable, but any
assignment to it is a runtime panic) from an empty map.  The external
document store (`github.com/sath33sh/infra/db`) is not part of this
repository; its contract is modelled from the specification (§6, §9) and
each such definition carries a doc comment starting `Modelled from the
spec:`.  Time (`time.Now()`) is passed in as an explicit parameter.
-/

namespace PatternsGraph

/-- Graph node, from `type Node struct` (graph.go lines 22-27).
`type` is the db object type tag, `id` the node id, `name` the display
name used as the default sort key, `photo` the thumbnail URL. -/
structure Node where
  type : String
  id : String
  name : String
  photo : String
deriving DecidableEq

/-- Relationship verb, from `type RelationVerb string` (line 30). -/
abbrev RelationVerb := String

/-- The arc object type constant `OBJ_ARC` (line 57). -/
def OBJ_ARC : String := "arc"

/-- A Go map from verbs to booleans, from `type Relation map[RelationVerb]bool`
(line 49).  `none` is the nil map (the Go zero value of a map type);
`some l` is a non-nil map whose entries are listed in `l`. -/
abbrev Relation := Option (List (RelationVerb × Bool))

/-- Go map read `m[key]` on the entry list: first entry wins (Go maps have
unique keys, so well-formed lists have at most one entry per key). -/
def relFind : List (RelationVerb × Bool) → RelationVerb → Option Bool
  | [], _ => none
  | (k, v) :: rest, key => if key = k then some v else relFind rest key

/-- Go map read `m[key]` on a possibly-nil map: reading a nil map yields
absence (Go: the zero value). -/
def relLookup (r : Relation) (key : RelationVerb) : Option Bool :=
  match r with
  | none => none
  | some l => relFind l key

/-- Removal of a key from the entry list, embedding Go `delete(m, key)`. -/
def eraseVerb (l : List (RelationVerb × Bool)) (key : RelationVerb) :
    List (RelationVerb × Bool) :=
  l.filter (fun p => p.1 ≠ key)

/-- Go map assignment `m[key] = v` on a non-nil map's entry list. -/
def setVerb (l : List (RelationVerb × Bool)) (key : RelationVerb) (v : Bool) :
    List (RelationVerb × Bool) :=
  (key, v) :: eraseVerb l key

/-- Arc options, from `type Options struct` (lines 52-54). -/
structure Options where
  ord : Int
deriving DecidableEq

/-- The arc (edge) document, from `type Arc struct` (lines 60-67).
`createdAt` is a timestamp, embedded as `Nat`. -/
structure Arc where
  type : String
  tail : Node
  head : Node
  relation : Relation
  options : Options
  createdAt : Nat
deriving DecidableEq

/-- The Go zero value of `Node`. -/
def zeroNode : Node := { type := "", id := "", name := "", photo := "" }

/-- The Go zero value of `Arc`: note the relation map is nil (`none`). -/
def zeroArc : Arc :=
  { type := "", tail := zeroNode, head := zeroNode, relation := none
    options := { ord := 0 }, createdAt := 0 }

/-- The arc identity key, from `Arc.GetMeta` (line 82):
`fmt.Sprintf("%s:%s>%s:%s", a.Tail.Type, a.Tail.Id, a.Head.Type, a.Head.Id)`. -/
def deriveKey (tail head : Node) : String :=
  tail.type ++ ":" ++ tail.id ++ ">" ++ head.type ++ ":" ++ head.id

/-- Modelled from the spec: the keyed document store backing the arcs
(one document per arc key).  The spec's store contract (§6) offers point
get / upsert by derived key; we embed the store contents as an
association list from keys to arc documents. -/
abbrev Store := List (String × Arc)

/-- Modelled from the spec: point read (`pointGet`) of the store. -/
def storeGet : Store → String → Option Arc
  | [], _ => none
  | (k, a) :: rest, key => if key = k then some a else storeGet rest key

/-- Modelled from the spec: unconditional create-or-replace (`pointUpsert`)
keyed by the derived key. -/
def storePut (s : Store) (key : String) (a : Arc) : Store :=
  (key, a) :: s.filter (fun p => p.1 ≠ key)

/-- `CreateArc` (lines 118-132): builds a fresh `Arc` with
`createdAt = time.Now()` (here the explicit `now` parameter) and
unconditionally upserts it under the derived key.  `db.Upsert` sets the
document type via the `SetType` interface method (line 87). -/
def createArc (tail head : Node) (r : Relation) (opts : Options) (now : Nat)
    (s : Store) : Store :=
  let a : Arc :=
    { type := OBJ_ARC, tail := tail, head := head, relation := r
      options := opts, createdAt := now }
  storePut s (deriveKey tail head) a

/-- Store-level errors surfaced to callers; `notFound` is the spec's
`NotFound` propagated from the point read. -/
inductive DbError where
  | notFound
deriving DecidableEq

/-- `GetRelation` (lines 135-142): point-reads the arc by derived key
(the probe arc is built from the endpoints' type and id only, which is
all the key uses) and returns its relation set, or `NotFound`. -/
def getRelation (s : Store) (tail head : Node) : Except DbError Relation :=
  let probeT : Node := { type := tail.type, id := tail.id, name := "", photo := "" }
  let probeH : Node := { type := head.type, id := head.id, name := "", photo := "" }
  match storeGet s (deriveKey probeT probeH) with
  | none => Except.error DbError.notFound
  | some a => Except.ok a.relation

/-- The merge loop of `UpdateRelation` (lines 160-166), iterating over
the delta's entries: a `true` value is assigned into the arc's relation
map (`la.Relation[key] = val`) — a runtime panic (`Except.error`) if
that map is nil — and a `false` value deletes the verb
(`delete(la.Relation, key)`, a no-op on a nil map). -/
def mergeRelation (rel : Relation) : List (RelationVerb × Bool) →
    Except Unit Relation
  | [] => Except.ok rel
  | (key, val) :: rest =>
    if val then
      match rel with
      | none => Except.error ()
      | some l => mergeRelation (some (setVerb l key val)) rest
    else
      match rel with
      | none => mergeRelation none rest
      | some l => mergeRelation (some (eraseVerb l key)) rest

/-- `UpdateRelation` (lines 145-174).  The locked read `db.GetLock` is
modelled from the spec (§6 `lockForUpdate`, §9 lock-on-absence): it
populates the document with the current stored content, or with the
zero-value `Arc` when no document exists for the key.  Lines 156-157
then overwrite tail and head with the caller's values, the delta is
merged, and `db.WriteUnlock` persists the document under the same key
(setting the document type, as every write path does).  The result is
`none` when the merge loop hits the nil-map assignment panic; external
lock/store failures leave the store unchanged and are outside this pure
embedding.  The delta is a Go map, given here as one of its entry lists. -/
def updateRelation (s : Store) (tail head : Node)
    (delta : List (RelationVerb × Bool)) : Option Store :=
  let probeT : Node := { type := tail.type, id := tail.id, name := "", photo := "" }
  let probeH : Node := { type := head.type, id := head.id, name := "", photo := "" }
  let key := deriveKey probeT probeH
  let la : Arc :=
    match storeGet s key with
    | some a => a
    | none => zeroArc
  let la' : Arc := { la with tail := tail, head := head }
  match mergeRelation la'.relation delta with
  | Except.error _ => none
  | Except.ok r' =>
    some (storePut s key { la' with relation := r', type := OBJ_ARC })

/-- Query result carrying a node list and continuation offsets, from
`type NodeQueryResult struct` (lines 177-181).  The offsets are decimal
strings (`fmt.Sprintf("%d", ...)`). -/
structure NodeQueryResult where
  results : List Node
  nextOffset : String
  prevOffset : String
deriving DecidableEq

/-- The N1QL filter of `QueryTails` / `Indegree` / `ForEachTail`
(`type="arc" AND head.type=... AND head.id=... AND relation.<verb>=true`)
as a predicate on stored arc documents. -/
def matchesTailQuery (head : Node) (r : RelationVerb) (a : Arc) : Bool :=
  a.type == OBJ_ARC && a.head.type == head.type && a.head.id == head.id &&
    relLookup a.relation r == some true

/-- The N1QL filter of `QueryHeads` / `Outdegree` / `ForEachHead`
(`type="arc" AND tail.type=... AND tail.id=... AND relation.<verb>=true`). -/
def matchesHeadQuery (tail : Node) (r : RelationVerb) (a : Arc) : Bool :=
  a.type == OBJ_ARC && a.tail.type == tail.type && a.tail.id == tail.id &&
    relLookup a.relation r == some true

/-- The rows of the tail query: the `SELECT tail.*` projection of the
matching arcs (the full, unpaginated result multiset, in store order). -/
def tailRows (arcs : List Arc) (head : Node) (r : RelationVerb) : List Node :=
  (arcs.filter (matchesTailQuery head r)).map Arc.tail

/-- The rows of the head query: the `SELECT head.*` projection of the
matching arcs. -/
def headRows (arcs : List Arc) (tail : Node) (r : RelationVerb) : List Node :=
  (arcs.filter (matchesHeadQuery tail r)).map Arc.head

/-- The N1QL statement string built by `QueryTails` (line 197):
the `fmt.Sprintf` format instantiated with the bucket name, `OBJ_ARC`,
the head's type and id, and the verb.  Note the trailing
`ORDER BY tail.name`. -/
def queryTailsStmt (bucket : String) (head : Node) (r : RelationVerb) : String :=
  "SELECT tail.* FROM `" ++ bucket ++ "` WHERE type=\"" ++ OBJ_ARC ++
    "\" AND head.type=\"" ++ head.type ++ "\" AND head.id=\"" ++ head.id ++
    "\" AND relation." ++ r ++ "=true ORDER BY tail.name"

/-- The N1QL statement string built by `QueryHeads` (line 215). -/
def queryHeadsStmt (bucket : String) (tail : Node) (r : RelationVerb) : String :=
  "SELECT head.* FROM `" ++ bucket ++ "` WHERE type=\"" ++ OBJ_ARC ++
    "\" AND tail.type=\"" ++ tail.type ++ "\" AND tail.id=\"" ++ tail.id ++
    "\" AND relation." ++ r ++ "=true ORDER BY head.name"

/-- The N1QL statement string built by `ForEachTail` (line 265): the same
filter as `QueryTails`, but with no `ORDER BY` clause. -/
def forEachTailStmt (bucket : String) (head : Node) (r : RelationVerb) : String :=
  "SELECT tail.* FROM `" ++ bucket ++ "` WHERE type=\"" ++ OBJ_ARC ++
    "\" AND head.type=\"" ++ head.type ++ "\" AND head.id=\"" ++ head.id ++
    "\" AND relation." ++ r ++ "=true"

/-- The N1QL statement string built by `ForEachHead` (line 289). -/
def forEachHeadStmt (bucket : String) (tail : Node) (r : RelationVerb) : String :=
  "SELECT head.* FROM `" ++ bucket ++ "` WHERE type=\"" ++ OBJ_ARC ++
    "\" AND tail.type=\"" ++ tail.type ++ "\" AND tail.id=\"" ++ tail.id ++
    "\" AND relation." ++ r ++ "=true"

/-- Modelled from the spec: `executePagedQuery` (§6) over a statement
whose full result sequence is `rows`: it returns the page of at most
`limit` rows starting at `offset`, together with the page size.  How
`rows` relates to the stored arcs (filter, projection, ordering) is
stated per statement as a hypothesis of each theorem. -/
def execPagedQuery (rows : List Node) (limit offset : Nat) : List Node × Nat :=
  let page := (rows.drop offset).take limit
  (page, page.length)

/-- `NodeQueryResult.QueryTails` (lines 195-210), composed with the
spec-modelled executor: runs the paged query for the tail statement's
result sequence `rows`, truncates `Results` to the returned size
(`qr.Results = qr.Results[:size]`), and sets
`PrevOffset = offset`, `NextOffset = offset + size` as decimal strings.
Returns the filled result and the size. -/
def queryTails (rows : List Node) (limit offset : Nat) : NodeQueryResult × Nat :=
  let (page, size) := execPagedQuery rows limit offset
  ({ results := page.take size
     prevOffset := toString offset
     nextOffset := toString (offset + size) }, size)

/-- `NodeQueryResult.QueryHeads` (lines 213-228); identical protocol to
`queryTails`, over the head statement's result sequence. -/
def queryHeads (rows : List Node) (limit offset : Nat) : NodeQueryResult × Nat :=
  let (page, size) := execPagedQuery rows limit offset
  ({ results := page.take size
     prevOffset := toString offset
     nextOffset := toString (offset + size) }, size)

/-- Modelled from the spec: a paged-query oracle, abstracting one
statement's behaviour at the store: given (limit, offset) it returns the
fetched rows, or `none` for a query failure.  The loop of
`ForEachTail`/`ForEachHead` is defined against an arbitrary oracle. -/
abbrev PagedOracle := Nat → Nat → Option (List Node)

/-- Modelled from the spec: the oracle of a store that pages consistently
over the fixed full result sequence `rows` and never fails. -/
def consOracle (rows : List Node) : PagedOracle :=
  fun limit offset => some ((rows.drop offset).take limit)

/-- Modelled from the spec: an oracle that pages consistently over `rows`
but fails (query error) as soon as the requested offset reaches
`failOfs`. -/
def failOracle (rows : List Node) (failOfs : Nat) : PagedOracle :=
  fun limit offset =>
    if failOfs ≤ offset then none
    else some ((rows.drop offset).take limit)

/-- The iteration loop shared by `ForEachTail` (lines 268-281) and
`ForEachHead` (lines 292-305), with the callback's visit sequence made
explicit as the returned list:
`size := QUERY_LIMIT_MAX; offset := 0; for size == QUERY_LIMIT_MAX {`
query with limit `size`; on error return (silently, invoking the
callback no further); else invoke the callback on each fetched row and
advance `offset += size` `}`.  `qmax` is the external constant
`db.QUERY_LIMIT_MAX`; `fuel` bounds the recursion (the Go loop is
unbounded) and every theorem below supplies enough of it. -/
def forEachLoop (q : PagedOracle) (qmax : Nat) :
    Nat → Nat → Nat → List Node
  | 0, _, _ => []
  | fuel + 1, size, offset =>
    if size = qmax then
      match q size offset with
      | none => []
      | some page =>
        page ++ forEachLoop q qmax fuel page.length (offset + page.length)
    else []

/-- `ForEachTail` (lines 261-282): the sequence of nodes passed to the
callback, in order.  The function returns nothing else — in particular
no error. -/
def forEachTail (q : PagedOracle) (qmax fuel : Nat) : List Node :=
  forEachLoop q qmax fuel qmax 0

/-- `ForEachHead` (lines 285-306): same loop over the head statement's
oracle. -/
def forEachHead (q : PagedOracle) (qmax fuel : Nat) : List Node :=
  forEachLoop q qmax fuel qmax 0

/-- Codepoint-wise comparison of strings, `true` when `a ≤ b`
lexicographically.  Used only to give witnesses a concrete, computable
name order; the ordering theorems are stated over an arbitrary order. -/
def strLeChars : List Char → List Char → Bool
  | [], _ => true
  | _ :: _, [] => false
  | a :: as, b :: bs =>
    if a.toNat < b.toNat then true
    else if b.toNat < a.toNat then false
    else strLeChars as bs

/-- Name order on nodes for witnesses. -/
abbrev nameLe (a b : Node) : Prop := strLeChars a.name.data b.name.data = true

/-- The relation stored for a key: the arc's relation set when a document
exists, and the nil relation of the zero-value arc otherwise (which is
what the lock-on-absence read yields). -/
def storedRelation (s : Store) (key : String) : Relation :=
  match storeGet s key with
  | some a => a.relation
  | none => none

/-- Sample node `user:1` used by concrete witnesses. -/
def wTail : Node := { type := "user", id := "1", name := "alice", photo := "" }

/-- Sample node `user:2` used by concrete witnesses. -/
def wHead : Node := { type := "user", id := "2", name := "bob", photo := "" }

/-- Sample arc from `wTail` to `wHead` with relation `{view: true}`. -/
def wArc : Arc :=
  { type := OBJ_ARC, tail := wTail, head := wHead
    relation := some [("view", true)], options := { ord := 0 }, createdAt := 5 }

/-- Sample one-arc store for concrete witnesses. -/
def wStore : Store := [(deriveKey wTail wHead, wArc)]

/-- Sample delta `{follow: true, view: false}` for concrete witnesses. -/
def wDelta : List (RelationVerb × Bool) := [("follow", true), ("view", false)]

/-- The arc `wArc` after merging `wDelta`. -/
def wArc1 : Arc := { wArc with relation := some [("follow", true)] }

/-- The store `wStore` after `updateRelation wStore wTail wHead wDelta`. -/
def wStore1 : Store := [(deriveKey wTail wHead, wArc1)]

/-- A node with the same `(type, id)` as `wTail` but different display
fields. -/
def wTailAlias : Node := { type := "user", id := "1", name := "ali", photo := "p" }

/-- Sample node `user:3` for concrete evaluations. -/
def cA : Node := { type := "user", id := "3", name := "carol", photo := "" }

/-- Sample node `user:4` for concrete evaluations. -/
def cB : Node := { type := "user", id := "4", name := "dave", photo := "" }

/-- A string free of the two separator characters of the derived key:
it contains neither `:` nor `>`. -/
abbrev sepFree (s : String) : Prop := ':' ∉ s.data ∧ '>' ∉ s.data

/-- First delta `{follow: true}` of the concurrent-update witness. -/
def xD1 : List (RelationVerb × Bool) := [("follow", true)]

/-- Second delta `{view: false}` of the concurrent-update witness. -/
def xD2 : List (RelationVerb × Bool) := [("view", false)]

/-- `wStore` after merging `xD1`. -/
def xS1 : Store :=
  [(deriveKey wTail wHead,
    { wArc with relation := some [("follow", true), ("view", true)] })]

/-- `xS1` after merging `xD2` (equals `wStore1`'s content). -/
def xS12 : Store := [(deriveKey wTail wHead, wArc1)]

/-- `wStore` after merging `xD2`. -/
def xS2 : Store :=
  [(deriveKey wTail wHead, { wArc with relation := some [] })]

/-- `xS2` after merging `xD1`. -/
def xS21 : Store := [(deriveKey wTail wHead, wArc1)]

/-- Sample arc `cA -follow-> wHead` for the traversal claims. -/
def cArc1 : Arc :=
  { type := OBJ_ARC, tail := cA, head := wHead
    relation := some [("follow", true)], options := { ord := 0 }, createdAt := 0 }

/-- Sample arc `cB -follow-> wHead` for the traversal claims. -/
def cArc2 : Arc :=
  { type := OBJ_ARC, tail := cB, head := wHead
    relation := some [("follow", true)], options := { ord := 0 }, createdAt := 0 }

/-- Sample arc collection for the traversal claims. -/
def cArcs : List Arc := [cArc1, cArc2]

/-- The matching tails of `cArcs` in descending-name store order. -/
def cR : List Node := [cB, cA]

-- ------------------------------------------------------------------
-- Helper lemmas about the embedded Go maps and the store
-- ------------------------------------------------------------------

theorem eraseVerb_cons (pk : RelationVerb) (pv : Bool)
    (rest : List (RelationVerb × Bool)) (k : RelationVerb) :
    eraseVerb ((pk, pv) :: rest) k =
      if pk = k then eraseVerb rest k else (pk, pv) :: eraseVerb rest k := by
  by_cases h : pk = k <;> simp [eraseVerb, List.filter_cons, h]

theorem relFind_eraseVerb (l : List (RelationVerb × Bool)) (k key : RelationVerb) :
    relFind (eraseVerb l k) key = if key = k then none else relFind l key := by
  induction l with
  | nil => by_cases h : key = k <;> simp [eraseVerb, relFind, h]
  | cons p rest ih =>
    obtain ⟨pk, pv⟩ := p
    rw [eraseVerb_cons]
    by_cases hpk : pk = k
    · subst hpk
      rw [if_pos rfl, ih]
      by_cases hkey : key = pk
      · simp [hkey]
      · simp [relFind, hkey]
    · rw [if_neg hpk]
      by_cases hkey : key = pk
      · subst hkey
        simp [relFind, hpk]
      · simp [relFind, hkey, ih]

theorem relFind_setVerb (l : List (RelationVerb × Bool)) (k key : RelationVerb)
    (v : Bool) :
    relFind (setVerb l k v) key = if key = k then some v else relFind l key := by
  by_cases hkey : key = k
  · simp [setVerb, relFind, hkey]
  · simp [setVerb, relFind, hkey, relFind_eraseVerb]

theorem relFind_eq_none_of_not_mem (l : List (RelationVerb × Bool))
    (k : RelationVerb) (h : k ∉ l.map Prod.fst) : relFind l k = none := by
  induction l with
  | nil => rfl
  | cons p rest ih =>
    simp only [List.map_cons, List.mem_cons] at h
    push_neg at h
    simp [relFind, h.1, ih h.2]

/-- Characterization of the merge loop: on success, the written relation
answers every lookup according to the delta — `true` entries are set,
`false` entries are absent, unmentioned verbs are unchanged. -/
theorem mergeRelation_lookup (delta : List (RelationVerb × Bool)) :
    ∀ (rel rel' : Relation), (delta.map Prod.fst).Nodup →
    mergeRelation rel delta = Except.ok rel' →
    ∀ v, relLookup rel' v =
      match relFind delta v with
      | some true => some true
      | some false => none
      | none => relLookup rel v := by
  induction delta with
  | nil =>
    intro rel rel' _ h v
    simp only [mergeRelation, Except.ok.injEq] at h
    subst h
    rfl
  | cons p rest ih =>
    intro rel rel' hnd h v
    obtain ⟨k, b⟩ := p
    simp only [List.map_cons, List.nodup_cons] at hnd
    obtain ⟨hk, hrest⟩ := hnd
    by_cases hv : v = k
    · subst hv
      have hrfind : relFind rest v = none :=
        relFind_eq_none_of_not_mem rest v hk
      cases b with
      | true =>
        cases rel with
        | none => simp [mergeRelation] at h
        | some l =>
          have h' : mergeRelation (some (setVerb l v true)) rest =
              Except.ok rel' := h
          have hthis := ih (some (setVerb l v true)) rel' hrest h' v
          simp only [hrfind] at hthis
          simp only [relFind, if_pos rfl]
          rw [hthis]
          simp [relLookup, relFind_setVerb]
      | false =>
        cases rel with
        | none =>
          have h' : mergeRelation none rest = Except.ok rel' := h
          have hthis := ih none rel' hrest h' v
          simp only [hrfind] at hthis
          simp only [relFind, if_pos rfl]
          rw [hthis]
          rfl
        | some l =>
          have h' : mergeRelation (some (eraseVerb l v)) rest =
              Except.ok rel' := h
          have hthis := ih (some (eraseVerb l v)) rel' hrest h' v
          simp only [hrfind] at hthis
          simp only [relFind, if_pos rfl]
          rw [hthis]
          simp [relLookup, relFind_eraseVerb]
    · have hfindcons : relFind ((k, b) :: rest) v = relFind rest v := by
        simp [relFind, hv]
      simp only [hfindcons]
      cases b with
      | true =>
        cases rel with
        | none => simp [mergeRelation] at h
        | some l =>
          have h' : mergeRelation (some (setVerb l k true)) rest =
              Except.ok rel' := h
          have hthis := ih (some (setVerb l k true)) rel' hrest h' v
          rw [hthis]
          cases hr : relFind rest v with
          | none => simp [relLookup, relFind_setVerb, hv]
          | some bb => cases bb <;> rfl
      | false =>
        cases rel with
        | none =>
          have h' : mergeRelation none rest = Except.ok rel' := h
          have hthis := ih none rel' hrest h' v
          rw [hthis]
        | some l =>
          have h' : mergeRelation (some (eraseVerb l k)) rest =
              Except.ok rel' := h
          have hthis := ih (some (eraseVerb l k)) rel' hrest h' v
          rw [hthis]
          cases hr : relFind rest v with
          | none => simp [relLookup, relFind_eraseVerb, hv]
          | some bb => cases bb <;> rfl

theorem storeGet_storePut_self (s : Store) (key : String) (a : Arc) :
    storeGet (storePut s key a) key = some a := by
  simp [storeGet, storePut]

/-- The derived key ignores the endpoints' display fields, so the probe
nodes built by `GetRelation`/`UpdateRelation` (type and id only) produce
the same key as the full nodes. -/
theorem deriveKey_probe (tail head : Node) :
    deriveKey { type := tail.type, id := tail.id, name := "", photo := "" }
      { type := head.type, id := head.id, name := "", photo := "" } =
    deriveKey tail head := rfl

/-- Elimination principle for a successful `updateRelation`: the arc now
stored under the pair's key has the merged relation set, the
caller-supplied endpoints, the arc object type, and the previous
document's `createdAt` and `options` (zero when no document existed). -/
theorem updateRelation_elim (s : Store) (tail head : Node)
    (delta : List (RelationVerb × Bool)) (s' : Store)
    (h : updateRelation s tail head delta = some s') :
    ∃ a', storeGet s' (deriveKey tail head) = some a' ∧
      mergeRelation (storedRelation s (deriveKey tail head)) delta =
        Except.ok a'.relation ∧
      a'.tail = tail ∧ a'.head = head ∧ a'.type = OBJ_ARC ∧
      a'.createdAt =
        (match storeGet s (deriveKey tail head) with
          | some a => a.createdAt
          | none => 0) ∧
      a'.options =
        (match storeGet s (deriveKey tail head) with
          | some a => a.options
          | none => { ord := 0 }) := by
  unfold updateRelation at h
  simp only [deriveKey_probe] at h
  cases hget : storeGet s (deriveKey tail head) with
  | none =>
    simp only [hget, zeroArc] at h
    cases hm : mergeRelation (none : Relation) delta with
    | error e => simp [hm] at h
    | ok r' =>
      simp only [hm, Option.some.injEq] at h
      subst h
      refine ⟨_, storeGet_storePut_self _ _ _, ?_, rfl, rfl, rfl, ?_, ?_⟩
      · simpa [storedRelation, hget] using hm
      · simp [hget]
      · simp [hget]
  | some a =>
    simp only [hget] at h
    cases hm : mergeRelation a.relation delta with
    | error e => simp [hm] at h
    | ok r' =>
      simp only [hm, Option.some.injEq] at h
      subst h
      refine ⟨_, storeGet_storePut_self _ _ _, ?_, rfl, rfl, rfl, ?_, ?_⟩
      · simpa [storedRelation, hget] using hm
      · simp [hget]
      · simp [hget]

-- ------------------------------------------------------------------
-- Claim C1
-- ------------------------------------------------------------------

/-- Claim C1: for every existing arc and every delta relation set, a
successful `UpdateRelation(tail, head, delta)` produces a relation set in
which every verb mapped to `true` in the delta is present with value
`true`, every verb mapped to `false` is absent (not stored as `false`),
and every verb not mentioned in the delta keeps its previous presence;
consequently the mutator never introduces a `false` entry, so relation
sets persisted only through it never contain one (the last conjunct: a
prior set free of `false` entries stays free of them). -/
theorem updateRelation_merge_correct (s : Store) (tail head : Node)
    (delta : List (RelationVerb × Bool)) (hnd : (delta.map Prod.fst).Nodup)
    (a : Arc) (ha : storeGet s (deriveKey tail head) = some a)
    (s' : Store) (h : updateRelation s tail head delta = some s') :
    ∃ a', storeGet s' (deriveKey tail head) = some a' ∧
      (∀ v, relFind delta v = some true → relLookup a'.relation v = some true) ∧
      (∀ v, relFind delta v = some false → relLookup a'.relation v = none) ∧
      (∀ v, relFind delta v = none →
        relLookup a'.relation v = relLookup a.relation v) ∧
      ((∀ v, relLookup a.relation v ≠ some false) →
        ∀ v, relLookup a'.relation v ≠ some false) := by
  obtain ⟨a', hget, hm, _, _, _, _, _⟩ := updateRelation_elim s tail head delta s' h
  have hsr : storedRelation s (deriveKey tail head) = a.relation := by
    simp [storedRelation, ha]
  rw [hsr] at hm
  have hlook := mergeRelation_lookup delta a.relation a'.relation hnd hm
  refine ⟨a', hget, ?_, ?_, ?_, ?_⟩
  · intro v hv
    have hl := hlook v
    rw [hv] at hl
    exact hl
  · intro v hv
    have hl := hlook v
    rw [hv] at hl
    exact hl
  · intro v hv
    have hl := hlook v
    rw [hv] at hl
    exact hl
  · intro hnf v
    have hl := hlook v
    cases hr : relFind delta v with
    | none =>
      rw [hr] at hl
      rw [hl]
      exact hnf v
    | some bb =>
      cases bb <;> rw [hr] at hl <;> rw [hl] <;> simp

/-- Witness for `updateRelation_merge_correct`: the concrete store
`wStore` holding the arc `wArc` (relation `{view: true}`), merged with
`wDelta = {follow: true, view: false}`, which succeeds and yields
`wStore1`. -/
theorem updateRelation_merge_correct_witness :
    ∃ a', storeGet wStore1 (deriveKey wTail wHead) = some a' ∧
      (∀ v, relFind wDelta v = some true → relLookup a'.relation v = some true) ∧
      (∀ v, relFind wDelta v = some false → relLookup a'.relation v = none) ∧
      (∀ v, relFind wDelta v = none →
        relLookup a'.relation v = relLookup wArc.relation v) ∧
      ((∀ v, relLookup wArc.relation v ≠ some false) →
        ∀ v, relLookup a'.relation v ≠ some false) :=
  updateRelation_merge_correct wStore wTail wHead wDelta (by decide)
    wArc (by decide) wStore1 (by decide)

-- ------------------------------------------------------------------
-- Claim C2: the derived key
-- ------------------------------------------------------------------

theorem append_sep_split {sep : Char} :
    ∀ (a : List Char), sep ∉ a → ∀ (c : List Char), sep ∉ c →
    ∀ (b d : List Char), a ++ sep :: b = c ++ sep :: d → a = c ∧ b = d := by
  intro a
  induction a with
  | nil =>
    intro _ c hc b d h
    cases c with
    | nil => simpa using h
    | cons x xs =>
      simp only [List.nil_append, List.cons_append, List.cons.injEq] at h
      apply absurd _ hc
      rw [h.1]
      exact List.mem_cons_self x xs
  | cons x xs ih =>
    intro hx c hc b d h
    cases c with
    | nil =>
      simp only [List.cons_append, List.nil_append, List.cons.injEq] at h
      apply absurd _ hx
      rw [← h.1]
      exact List.mem_cons_self x xs
    | cons y ys =>
      simp only [List.cons_append, List.cons.injEq] at h
      obtain ⟨hxy, hrest⟩ := h
      have hx' : sep ∉ xs := fun hm => hx (List.mem_cons_of_mem _ hm)
      have hy' : sep ∉ ys := fun hm => hc (List.mem_cons_of_mem _ hm)
      obtain ⟨h1, h2⟩ := ih hx' ys hy' b d hrest
      exact ⟨by rw [hxy, h1], h2⟩

theorem deriveKey_data (t h : Node) :
    (deriveKey t h).data =
      t.type.data ++ ':' :: (t.id.data ++ '>' :: (h.type.data ++ ':' :: h.id.data)) := by
  have hc : (":" : String).data = [':'] := rfl
  have hg : (">" : String).data = ['>'] := rfl
  simp [deriveKey, String.data_append, hc, hg, List.append_assoc]

/-- Injectivity of the derived key on separator-free components. -/
theorem deriveKey_inj_of_sepFree (A B A' B' : Node)
    (hAt : sepFree A.type) (hAi : sepFree A.id)
    (hBt : sepFree B.type) (hBi : sepFree B.id)
    (hAt' : sepFree A'.type) (hAi' : sepFree A'.id)
    (hBt' : sepFree B'.type) (hBi' : sepFree B'.id)
    (h : deriveKey A B = deriveKey A' B') :
    A.type = A'.type ∧ A.id = A'.id ∧ B.type = B'.type ∧ B.id = B'.id := by
  have hd := congrArg String.data h
  rw [deriveKey_data, deriveKey_data] at hd
  obtain ⟨h1, hrest⟩ := append_sep_split _ hAt.1 _ hAt'.1 _ _ hd
  obtain ⟨h2, hrest2⟩ := append_sep_split _ hAi.2 _ hAi'.2 _ _ hrest
  obtain ⟨h3, h4⟩ := append_sep_split _ hBt.1 _ hBt'.1 _ _ hrest2
  exact ⟨String.ext h1, String.ext h2, String.ext h3, String.ext h4⟩

/-- Counterexample to claim C2 as stated: the derived key is plain
concatenation, so (i) two different `(tail.kind, tail.id, head.kind,
head.id)` tuples collide once an identifier contains a separator
character, refuting injectivity, and (ii) two nodes that differ only in
display fields are different nodes with `deriveKey(A,B) = deriveKey(B,A)`,
refuting the antisymmetry stated for all `A ≠ B`. -/
theorem deriveKey_not_injective :
    (deriveKey { type := "a:b", id := "c", name := "", photo := "" }
        { type := "h", id := "i", name := "", photo := "" } =
      deriveKey { type := "a", id := "b:c", name := "", photo := "" }
        { type := "h", id := "i", name := "", photo := "" } ∧
      (("a:b" : String), ("c" : String)) ≠ (("a" : String), ("b:c" : String))) ∧
    (({ type := "u", id := "1", name := "x", photo := "" } : Node) ≠
        { type := "u", id := "1", name := "y", photo := "" } ∧
      deriveKey { type := "u", id := "1", name := "x", photo := "" }
          { type := "u", id := "1", name := "y", photo := "" } =
        deriveKey { type := "u", id := "1", name := "y", photo := "" }
          { type := "u", id := "1", name := "x", photo := "" }) :=
  ⟨⟨rfl, by decide⟩, by decide, rfl⟩

/-- Claim C2 amended: the derived key is a pure function of
`(tail.type, tail.id, head.type, head.id)`; restricted to components
free of the separator characters `:` and `>`, it is injective on those
four fields, and `deriveKey A B ≠ deriveKey B A` whenever
`(A.type, A.id) ≠ (B.type, B.id)`. -/
theorem deriveKey_properties :
    (∀ A B A' B' : Node, A.type = A'.type → A.id = A'.id → B.type = B'.type →
      B.id = B'.id → deriveKey A B = deriveKey A' B') ∧
    (∀ A B A' B' : Node, sepFree A.type → sepFree A.id → sepFree B.type →
      sepFree B.id → sepFree A'.type → sepFree A'.id → sepFree B'.type →
      sepFree B'.id → deriveKey A B = deriveKey A' B' →
      A.type = A'.type ∧ A.id = A'.id ∧ B.type = B'.type ∧ B.id = B'.id) ∧
    (∀ A B : Node, sepFree A.type → sepFree A.id → sepFree B.type →
      sepFree B.id → (A.type, A.id) ≠ (B.type, B.id) →
      deriveKey A B ≠ deriveKey B A) := by
  refine ⟨?_, ?_, ?_⟩
  · intro A B A' B' h1 h2 h3 h4
    simp [deriveKey, h1, h2, h3, h4]
  · intro A B A' B' hAt hAi hBt hBi hAt' hAi' hBt' hBi' h
    exact deriveKey_inj_of_sepFree A B A' B' hAt hAi hBt hBi hAt' hAi' hBt' hBi' h
  · intro A B hAt hAi hBt hBi hne h
    obtain ⟨h1, h2, _, _⟩ :=
      deriveKey_inj_of_sepFree A B B A hAt hAi hBt hBi hBt hBi hAt hAi h
    exact hne (by rw [h1, h2])

/-- Witness for `deriveKey_properties` at concrete nodes: purity across
display-field changes, injectivity, and direction-sensitivity of the
key of `user:1` and `user:2`. -/
theorem deriveKey_properties_witness :
    (deriveKey wTail wHead = deriveKey wTailAlias wHead) ∧
    (wTail.type = wTail.type ∧ wTail.id = wTail.id ∧
      wHead.type = wHead.type ∧ wHead.id = wHead.id) ∧
    (deriveKey wTail wHead ≠ deriveKey wHead wTail) :=
  ⟨deriveKey_properties.1 wTail wHead wTailAlias wHead rfl rfl rfl rfl,
   deriveKey_properties.2.1 wTail wHead wTail wHead (by decide) (by decide)
     (by decide) (by decide) (by decide) (by decide) (by decide) (by decide) rfl,
   deriveKey_properties.2.2 wTail wHead (by decide) (by decide) (by decide)
     (by decide) (by decide)⟩

-- ------------------------------------------------------------------
-- Claim C3: createdAt
-- ------------------------------------------------------------------

/-- Counterexample to claim C3 as stated: a second `CreateArc` on the
same pair overwrites `createdAt` (here from time 1 to time 2), so the
field is not set exactly once. -/
theorem createArc_overwrites_createdAt :
    (storeGet (createArc wTail wHead (some []) { ord := 0 } 1 [])
        (deriveKey wTail wHead)).map Arc.createdAt = some 1 ∧
    (storeGet
        (createArc wTail wHead (some []) { ord := 0 } 2
          (createArc wTail wHead (some []) { ord := 0 } 1 []))
        (deriveKey wTail wHead)).map Arc.createdAt = some 2 ∧
    (some 1 : Option Nat) ≠ some 2 := by
  refine ⟨by decide, by decide, by decide⟩

/-- Claim C3 amended: `CreateArc` sets `createdAt` to the current time on
every call — so a subsequent `CreateArc` on the same pair overwrites it —
while a successful `UpdateRelation` never modifies the stored
`createdAt`: it keeps the previous document's value, and the zero
timestamp when no document existed. -/
theorem createdAt_behaviour :
    (∀ (tail head : Node) (r : Relation) (opts : Options) (now : Nat) (s : Store),
      (storeGet (createArc tail head r opts now s) (deriveKey tail head)).map
        Arc.createdAt = some now) ∧
    (∀ (s : Store) (tail head : Node) (delta : List (RelationVerb × Bool))
      (s' : Store), updateRelation s tail head delta = some s' →
      (storeGet s' (deriveKey tail head)).map Arc.createdAt =
        some (match storeGet s (deriveKey tail head) with
          | some a => a.createdAt
          | none => 0)) := by
  constructor
  · intro tail head r opts now s
    simp [createArc, storeGet_storePut_self]
  · intro s tail head delta s' h
    obtain ⟨a', hget, _, _, _, _, hca, _⟩ := updateRelation_elim s tail head delta s' h
    simp [hget, hca]

/-- Witness for `createdAt_behaviour`: creation stamps time 7; the merge
of `wDelta` into `wStore` keeps `wArc`'s timestamp 5. -/
theorem createdAt_behaviour_witness :
    ((storeGet (createArc wTail wHead (some []) { ord := 0 } 7 [])
        (deriveKey wTail wHead)).map Arc.createdAt = some 7) ∧
    ((storeGet wStore1 (deriveKey wTail wHead)).map Arc.createdAt =
      some (match storeGet wStore (deriveKey wTail wHead) with
        | some a => a.createdAt
        | none => 0)) :=
  ⟨createdAt_behaviour.1 wTail wHead (some []) { ord := 0 } 7 [],
   createdAt_behaviour.2 wStore wTail wHead wDelta wStore1 (by decide)⟩

-- ------------------------------------------------------------------
-- Claims C4, C5, C9: the nil-map panic on fresh pairs
-- ------------------------------------------------------------------

/-- Claim C4 evaluated on the code: on a fresh pair, the very first
`UpdateRelation` with `{like: true}` assigns into the nil relation map of
the zero-value arc — a Go runtime panic, embedded as `none` — so the
`true`-then-`false` sequence cannot even begin, let alone leave the verb
absent. -/
theorem updateRelation_fresh_true_then_false_panics :
    updateRelation [] wTail wHead [("like", true)] = none ∧
    (updateRelation [] wTail wHead [("like", true)]).bind
      (fun s1 => updateRelation s1 wTail wHead [("like", false)]) = none := by
  refine ⟨by decide, by decide⟩

/-- Claim C5 evaluated on the code: when the locked read yields the
zero-value arc (fresh pair), a delta mapping `follow` to `true` is
assigned into the nil relation map — a Go runtime panic (`assignment to
entry in nil map`), embedded as `none` — instead of completing and
persisting `{follow: true}`. -/
theorem updateRelation_fresh_panics :
    updateRelation [] wTail wHead [("follow", true)] = none := by decide

/-- Claim C9 evaluated on the code: on a state with no arc in either
direction, `UpdateRelation(A, B, {follow: true})` panics on the nil
relation map instead of succeeding, so the claim's premise of a
successful update is unreachable; both point reads still fail with
`NotFound`. -/
theorem updateRelation_directionality_blocked :
    updateRelation [] cA cB [("follow", true)] = none ∧
    getRelation [] cA cB = Except.error DbError.notFound ∧
    getRelation [] cB cA = Except.error DbError.notFound :=
  ⟨by decide, rfl, rfl⟩

-- ------------------------------------------------------------------
-- Claim C10: disjoint concurrent updates, serialized by the lock
-- ------------------------------------------------------------------

/-- Claim C10: the spec models the arc's exclusive lock as serializing
two concurrent `UpdateRelation` calls on the same pair, in
lock-acquisition order (either order).  For disjoint verb deltas, both
serialization orders succeed to the same relation set: every verb
`true` in either delta is present, every verb `false` in either delta is
absent, and every other verb keeps the prior arc's presence — the union
of both deltas' true-verbs minus both deltas' false-verbs, over the
prior state. -/
theorem updateRelation_concurrent_disjoint (s : Store) (tail head : Node)
    (d1 d2 : List (RelationVerb × Bool))
    (hnd1 : (d1.map Prod.fst).Nodup) (hnd2 : (d2.map Prod.fst).Nodup)
    (hdisj : ∀ v, relFind d1 v = none ∨ relFind d2 v = none)
    (s1 s12 s2 s21 : Store)
    (h1 : updateRelation s tail head d1 = some s1)
    (h12 : updateRelation s1 tail head d2 = some s12)
    (h2 : updateRelation s tail head d2 = some s2)
    (h21 : updateRelation s2 tail head d1 = some s21) :
    ∃ a12 a21, storeGet s12 (deriveKey tail head) = some a12 ∧
      storeGet s21 (deriveKey tail head) = some a21 ∧
      ∀ v, relLookup a12.relation v = relLookup a21.relation v ∧
        relLookup a12.relation v =
          (if relFind d1 v = some true ∨ relFind d2 v = some true then some true
           else if relFind d1 v = some false ∨ relFind d2 v = some false then none
           else relLookup (storedRelation s (deriveKey tail head)) v) := by
  obtain ⟨a1, hg1, hm1, _, _, _, _, _⟩ := updateRelation_elim s tail head d1 s1 h1
  obtain ⟨a12, hg12, hm12, _, _, _, _, _⟩ :=
    updateRelation_elim s1 tail head d2 s12 h12
  obtain ⟨a2, hg2, hm2, _, _, _, _, _⟩ := updateRelation_elim s tail head d2 s2 h2
  obtain ⟨a21, hg21, hm21, _, _, _, _, _⟩ :=
    updateRelation_elim s2 tail head d1 s21 h21
  have hsr1 : storedRelation s1 (deriveKey tail head) = a1.relation := by
    simp [storedRelation, hg1]
  have hsr2 : storedRelation s2 (deriveKey tail head) = a2.relation := by
    simp [storedRelation, hg2]
  rw [hsr1] at hm12
  rw [hsr2] at hm21
  have l1 := mergeRelation_lookup d1 _ _ hnd1 hm1
  have l12 := mergeRelation_lookup d2 _ _ hnd2 hm12
  have l2 := mergeRelation_lookup d2 _ _ hnd2 hm2
  have l21 := mergeRelation_lookup d1 _ _ hnd1 hm21
  refine ⟨a12, a21, hg12, hg21, ?_⟩
  intro v
  have e1 := l1 v
  have e12 := l12 v
  have e2 := l2 v
  have e21 := l21 v
  rcases hdisj v with hd | hd
  · simp only [hd] at e1 e21
    cases hf2 : relFind d2 v with
    | none =>
      simp only [hf2] at e12 e2
      rw [e12, e1, e21, e2]
      simp [hd, hf2]
    | some b =>
      cases b with
      | true =>
        simp only [hf2] at e12 e2
        rw [e12, e21, e2]
        simp [hd, hf2]
      | false =>
        simp only [hf2] at e12 e2
        rw [e12, e21, e2]
        simp [hd, hf2]
  · simp only [hd] at e12 e2
    cases hf1 : relFind d1 v with
    | none =>
      simp only [hf1] at e1 e21
      rw [e12, e1, e21, e2]
      simp [hd, hf1]
    | some b =>
      cases b with
      | true =>
        simp only [hf1] at e1 e21
        rw [e12, e1, e21]
        simp [hd, hf1]
      | false =>
        simp only [hf1] at e1 e21
        rw [e12, e1, e21]
        simp [hd, hf1]

/-- Witness for `updateRelation_concurrent_disjoint`: on `wStore`, the
disjoint deltas `{follow: true}` and `{view: false}` applied in both
orders yield the same relation set `{follow: true}`. -/
theorem updateRelation_concurrent_disjoint_witness :
    ∃ a12 a21, storeGet xS12 (deriveKey wTail wHead) = some a12 ∧
      storeGet xS21 (deriveKey wTail wHead) = some a21 ∧
      ∀ v, relLookup a12.relation v = relLookup a21.relation v ∧
        relLookup a12.relation v =
          (if relFind xD1 v = some true ∨ relFind xD2 v = some true then some true
           else if relFind xD1 v = some false ∨ relFind xD2 v = some false then none
           else relLookup (storedRelation wStore (deriveKey wTail wHead)) v) :=
  updateRelation_concurrent_disjoint wStore wTail wHead xD1 xD2
    (by decide) (by decide)
    (fun v => by
      by_cases hv : v = "follow"
      · right
        simp [xD2, relFind, hv]
      · left
        simp [xD1, relFind, hv])
    xS1 xS12 xS2 xS21 (by decide) (by decide) (by decide) (by decide)

-- ------------------------------------------------------------------
-- Claims C6, C7: the unbounded iteration loop
-- ------------------------------------------------------------------

theorem forEachLoop_stop (q : PagedOracle) (qmax fuel size offset : Nat)
    (h : size ≠ qmax) : forEachLoop q qmax fuel size offset = [] := by
  cases fuel with
  | zero => rfl
  | succ n => simp [forEachLoop, h]

/-- Over a store that pages consistently through the fixed result
sequence `R`, the loop delivers exactly the remaining rows: it repeats
full pages of size `qmax`, advancing the offset by each page's size, and
stops at the first short page. -/
theorem forEachLoop_cons (R : List Node) (qmax : Nat) (hq : 0 < qmax) :
    ∀ (fuel offset : Nat), R.length - offset < fuel * qmax →
    forEachLoop (consOracle R) qmax fuel qmax offset = R.drop offset := by
  intro fuel
  induction fuel with
  | zero =>
    intro offset h
    rw [Nat.zero_mul] at h
    omega
  | succ n ih =>
    intro offset h
    simp only [forEachLoop, if_pos, consOracle]
    by_cases hfull : qmax ≤ R.length - offset
    · have hlen : ((R.drop offset).take qmax).length = qmax := by
        simp only [List.length_take, List.length_drop]
        omega
      rw [hlen]
      have harith : R.length - (offset + qmax) < n * qmax := by
        rw [Nat.succ_mul] at h
        generalize n * qmax = m at h ⊢
        omega
      rw [ih (offset + qmax) harith]
      have hdd : R.drop (offset + qmax) = (R.drop offset).drop qmax := by
        rw [List.drop_drop, Nat.add_comm]
      rw [hdd]
      exact List.take_append_drop qmax (R.drop offset)
    · have hlt : R.length - offset < qmax := by omega
      have hle : (R.drop offset).length ≤ qmax := by
        simp only [List.length_drop]
        omega
      have htake : (R.drop offset).take qmax = R.drop offset :=
        List.take_of_length_le hle
      have hlen : ((R.drop offset).take qmax).length = R.length - offset := by
        simp only [List.length_take, List.length_drop]
        omega
      rw [forEachLoop_stop _ _ _ _ _ (by omega : ((R.drop offset).take qmax).length ≠ qmax)]
      rw [htake, List.append_nil]

/-- Over a store that pages consistently through `R` until the query
fails once the offset reaches `failOfs = offset + k * qmax`, the loop
delivers exactly the rows of the `k` full pages before the failure and
then stops silently. -/
theorem forEachLoop_fail (R : List Node) (qmax : Nat) (hq : 0 < qmax) :
    ∀ (k fuel offset : Nat), k < fuel → offset + k * qmax ≤ R.length →
    forEachLoop (failOracle R (offset + k * qmax)) qmax fuel qmax offset =
      (R.drop offset).take (k * qmax) := by
  intro k
  induction k with
  | zero =>
    intro fuel offset hk hofs
    cases fuel with
    | zero => omega
    | succ n =>
      simp [forEachLoop, failOracle]
  | succ j ih =>
    intro fuel offset hk hofs
    cases fuel with
    | zero => omega
    | succ n =>
      have hpos : ¬ (offset + (j + 1) * qmax ≤ offset) := by
        rw [Nat.succ_mul]
        generalize j * qmax = m
        omega
      have horacle : failOracle R (offset + (j + 1) * qmax) qmax offset =
          some ((R.drop offset).take qmax) := by
        simp [failOracle, hpos]
      simp only [forEachLoop, if_pos, horacle]
      have hfull : qmax ≤ R.length - offset := by
        rw [Nat.succ_mul] at hofs
        generalize j * qmax = m at hofs
        omega
      have hlen : ((R.drop offset).take qmax).length = qmax := by
        simp only [List.length_take, List.length_drop]
        omega
      rw [hlen]
      have hshift : offset + (j + 1) * qmax = (offset + qmax) + j * qmax := by
        rw [Nat.succ_mul]
        generalize j * qmax = m
        omega
      rw [hshift]
      have hofs' : (offset + qmax) + j * qmax ≤ R.length := by
        rw [← hshift]
        exact hofs
      rw [ih n (offset + qmax) (by omega) hofs']
      have hdd : R.drop (offset + qmax) = (R.drop offset).drop qmax := by
        rw [List.drop_drop, Nat.add_comm]
      rw [hdd, Nat.succ_mul, Nat.add_comm (j * qmax) qmax, List.take_add]

/-- Counterexample to claim C6 as stated: the statement built by
`ForEachTail` is exactly the `QueryTails` statement stripped of its
`ORDER BY tail.name` clause, so the iteration requests no ordering; a
store paging the two matching rows in descending-name order drives the
callbacks in descending-name order, refuting "in ascending order of the
projected endpoint's name". -/
theorem forEachTail_not_name_ordered :
    queryTailsStmt "b" wHead "follow" =
      forEachTailStmt "b" wHead "follow" ++ " ORDER BY tail.name" ∧
    cR.Perm (tailRows cArcs wHead "follow") ∧
    forEachTail (consOracle cR) 2 2 = cR ∧
    ¬ (forEachTail (consOracle cR) 2 2).Pairwise nameLe := by
  refine ⟨rfl, by decide, by decide, ?_⟩
  intro hp
  have heq : forEachTail (consOracle cR) 2 2 = [cB, cA] := by decide
  rw [heq] at hp
  cases hp with
  | cons h1 _ =>
    exact absurd (h1 cA (List.mem_cons_self cA [])) (by decide)

/-- Claim C6 amended: `ForEachTail`/`ForEachHead` repeat the paged query
with the fixed maximum page size, advance the offset by the number of
rows returned each round, stop exactly when a round returns fewer rows
than the maximum page size (including zero), and invoke the callback
exactly once per result row of the filtered query — in the order the
store returns the rows (the iteration statements request no ordering),
assuming the store pages consistently over a fixed result sequence. -/
theorem forEach_visits_each_row (arcs : List Arc) (head tail : Node)
    (r : RelationVerb) (R S : List Node) (qmax fuel : Nat) (hq : 0 < qmax)
    (hR : R.Perm (tailRows arcs head r)) (hS : S.Perm (headRows arcs tail r))
    (hfR : R.length < fuel * qmax) (hfS : S.length < fuel * qmax) :
    forEachTail (consOracle R) qmax fuel = R ∧
    forEachHead (consOracle S) qmax fuel = S := by
  constructor
  · have hcall := forEachLoop_cons R qmax hq fuel 0 (by simpa using hfR)
    simpa [forEachTail] using hcall
  · have hcall := forEachLoop_cons S qmax hq fuel 0 (by simpa using hfS)
    simpa [forEachHead] using hcall

/-- Witness for `forEach_visits_each_row`: iterating the tails of
`wHead` and the heads of `cA` over `cArcs` with page size 2. -/
theorem forEach_visits_each_row_witness :
    forEachTail (consOracle [cA, cB]) 2 2 = [cA, cB] ∧
    forEachHead (consOracle [wHead]) 2 2 = [wHead] :=
  forEach_visits_each_row cArcs wHead cA "follow" [cA, cB] [wHead] 2 2
    (by decide) (by decide) (by decide) (by decide) (by decide)

/-- Claim C7: in `ForEachTail` and `ForEachHead`, a query failure
mid-iteration terminates the iteration without invoking the callback
further and without signalling the caller: the visit sequence is exactly
the rows of the full pages before the failing round — identical to the
visit sequence over a store whose result set is simply exhausted there,
so the caller cannot distinguish an exhausted result set from an errored
one (the loop returns only the visit sequence; there is no error
output). -/
theorem forEach_error_silent (R S : List Node) (qmax fuel k j : Nat)
    (hq : 0 < qmax) (hk : k < fuel) (hkR : k * qmax ≤ R.length)
    (hj : j < fuel) (hjS : j * qmax ≤ S.length) :
    (forEachTail (failOracle R (k * qmax)) qmax fuel = R.take (k * qmax) ∧
     forEachTail (consOracle (R.take (k * qmax))) qmax fuel = R.take (k * qmax)) ∧
    (forEachHead (failOracle S (j * qmax)) qmax fuel = S.take (j * qmax) ∧
     forEachHead (consOracle (S.take (j * qmax))) qmax fuel = S.take (j * qmax)) := by
  have hRlen : (R.take (k * qmax)).length = k * qmax := by
    rw [List.length_take, Nat.min_eq_left hkR]
  have hSlen : (S.take (j * qmax)).length = j * qmax := by
    rw [List.length_take, Nat.min_eq_left hjS]
  refine ⟨⟨?_, ?_⟩, ⟨?_, ?_⟩⟩
  · have hcall := forEachLoop_fail R qmax hq k fuel 0 hk (by simpa using hkR)
    simpa [forEachTail] using hcall
  · have hcall := forEachLoop_cons (R.take (k * qmax)) qmax hq fuel 0
      (by rw [hRlen]; simpa using mul_lt_mul_of_pos_right hk hq)
    simpa [forEachTail] using hcall
  · have hcall := forEachLoop_fail S qmax hq j fuel 0 hj (by simpa using hjS)
    simpa [forEachHead] using hcall
  · have hcall := forEachLoop_cons (S.take (j * qmax)) qmax hq fuel 0
      (by rw [hSlen]; simpa using mul_lt_mul_of_pos_right hj hq)
    simpa [forEachHead] using hcall

/-- Witness for `forEach_error_silent`: page size 1, failure after one
full page of `[cA, cB]` (respectively `[wHead]`). -/
theorem forEach_error_silent_witness :
    (forEachTail (failOracle [cA, cB] (1 * 1)) 1 2 = [cA, cB].take (1 * 1) ∧
     forEachTail (consOracle ([cA, cB].take (1 * 1))) 1 2 = [cA, cB].take (1 * 1)) ∧
    (forEachHead (failOracle [wHead] (1 * 1)) 1 2 = [wHead].take (1 * 1) ∧
     forEachHead (consOracle ([wHead].take (1 * 1))) 1 2 = [wHead].take (1 * 1)) :=
  forEach_error_silent [cA, cB] [wHead] 1 2 1 1 (by decide) (by decide)
    (by decide) (by decide) (by decide)

-- ------------------------------------------------------------------
-- Claim C8: paged queries
-- ------------------------------------------------------------------

theorem page_sublist (R : List Node) (limit offset : Nat) :
    ((R.drop offset).take limit).Sublist R :=
  (List.take_sublist limit (R.drop offset)).trans (List.drop_sublist offset R)

theorem queryTails_facts (R full : List Node) (limit offset : Nat)
    (le : String → String → Prop)
    (hperm : R.Perm full) (hsorted : (R.map Node.name).Pairwise le) :
    ∃ qr size, queryTails R limit offset = (qr, size) ∧ size ≤ limit ∧
      qr.results.length = size ∧ qr.prevOffset = toString offset ∧
      qr.nextOffset = toString (offset + size) ∧
      (∀ n ∈ qr.results, n ∈ full) ∧
      (qr.results.map Node.name).Pairwise le := by
  refine ⟨(queryTails R limit offset).1, (queryTails R limit offset).2, rfl,
    ?_, ?_, ?_, ?_, ?_, ?_⟩
  · simp only [queryTails, execPagedQuery, List.length_take]
    omega
  · simp [queryTails, execPagedQuery, List.take_length]
  · simp [queryTails, execPagedQuery]
  · simp [queryTails, execPagedQuery, List.take_length]
  · intro n hn
    simp only [queryTails, execPagedQuery, List.take_length] at hn
    exact hperm.subset ((page_sublist R limit offset).subset hn)
  · have hsub := (page_sublist R limit offset).map Node.name
    have hpw := List.Pairwise.sublist hsub hsorted
    simp only [queryTails, execPagedQuery, List.take_length]
    exact hpw

theorem queryHeads_facts (S full : List Node) (limit offset : Nat)
    (le : String → String → Prop)
    (hperm : S.Perm full) (hsorted : (S.map Node.name).Pairwise le) :
    ∃ qr size, queryHeads S limit offset = (qr, size) ∧ size ≤ limit ∧
      qr.results.length = size ∧ qr.prevOffset = toString offset ∧
      qr.nextOffset = toString (offset + size) ∧
      (∀ n ∈ qr.results, n ∈ full) ∧
      (qr.results.map Node.name).Pairwise le := by
  refine ⟨(queryHeads S limit offset).1, (queryHeads S limit offset).2, rfl,
    ?_, ?_, ?_, ?_, ?_, ?_⟩
  · simp only [queryHeads, execPagedQuery, List.length_take]
    omega
  · simp [queryHeads, execPagedQuery, List.take_length]
  · simp [queryHeads, execPagedQuery]
  · simp [queryHeads, execPagedQuery, List.take_length]
  · intro n hn
    simp only [queryHeads, execPagedQuery, List.take_length] at hn
    exact hperm.subset ((page_sublist S limit offset).subset hn)
  · have hsub := (page_sublist S limit offset).map Node.name
    have hpw := List.Pairwise.sublist hsub hsorted
    simp only [queryHeads, execPagedQuery, List.take_length]
    exact hpw

/-- Claim C8: a successful `QueryTails(head, verb, limit, offset)` or
`QueryHeads(tail, verb, limit, offset)` returning `size` rows carries
`prevOffset = offset` and `nextOffset = offset + size` (as decimal
strings), returns at most `limit` rows (`size` of them), and the rows
are opposite-endpoint projections of the filtered arcs, in ascending
order of that endpoint's name — stated over any order `le` in which the
store's full result sequence is sorted. -/
theorem query_pagination_correct (arcs : List Arc) (head tail : Node)
    (r : RelationVerb) (R S : List Node) (limit offset : Nat)
    (le : String → String → Prop)
    (hR : R.Perm (tailRows arcs head r)) (hRs : (R.map Node.name).Pairwise le)
    (hS : S.Perm (headRows arcs tail r)) (hSs : (S.map Node.name).Pairwise le) :
    (∃ qr size, queryTails R limit offset = (qr, size) ∧ size ≤ limit ∧
      qr.results.length = size ∧ qr.prevOffset = toString offset ∧
      qr.nextOffset = toString (offset + size) ∧
      (∀ n ∈ qr.results, n ∈ tailRows arcs head r) ∧
      (qr.results.map Node.name).Pairwise le) ∧
    (∃ qr size, queryHeads S limit offset = (qr, size) ∧ size ≤ limit ∧
      qr.results.length = size ∧ qr.prevOffset = toString offset ∧
      qr.nextOffset = toString (offset + size) ∧
      (∀ n ∈ qr.results, n ∈ headRows arcs tail r) ∧
      (qr.results.map Node.name).Pairwise le) :=
  ⟨queryTails_facts R (tailRows arcs head r) limit offset le hR hRs,
   queryHeads_facts S (headRows arcs tail r) limit offset le hS hSs⟩

/-- Witness for `query_pagination_correct`: the tails of `wHead` and the
heads of `cA` in `cArcs`, sorted by the concrete codepoint order. -/
theorem query_pagination_correct_witness :
    (∃ qr size, queryTails [cA, cB] 10 0 = (qr, size) ∧ size ≤ 10 ∧
      qr.results.length = size ∧ qr.prevOffset = toString 0 ∧
      qr.nextOffset = toString (0 + size) ∧
      (∀ n ∈ qr.results, n ∈ tailRows cArcs wHead "follow") ∧
      (qr.results.map Node.name).Pairwise
        (fun a b => strLeChars a.data b.data = true)) ∧
    (∃ qr size, queryHeads [wHead] 10 0 = (qr, size) ∧ size ≤ 10 ∧
      qr.results.length = size ∧ qr.prevOffset = toString 0 ∧
      qr.nextOffset = toString (0 + size) ∧
      (∀ n ∈ qr.results, n ∈ headRows cArcs cA "follow") ∧
      (qr.results.map Node.name).Pairwise
        (fun a b => strLeChars a.data b.data = true)) :=
  query_pagination_correct cArcs wHead cA "follow" [cA, cB] [wHead] 10 0
    (fun a b => strLeChars a.data b.data = true)
    (by decide) (by decide) (by decide) (by decide)

end PatternsGraph
